import Mathlib

/-!
Verification of the precompilation and template-patching subsystem of the
`beaker` repository (`src/beaker/precompile.py`), via a shallow embedding.

Modelling conventions:
* Python `bytes` values are `List Nat` with every element `< 256`.
* Python `str` source text is `List Char` (source lines use `\n` endings,
  as produced by the TEAL generators feeding this subsystem).
* The external compiler's source map (`SourceMap.get_pcs_for_line(l)[0]`)
  is a function `first_pc : Nat → Nat`, per the external-interface contract
  "get program-counter(s) for source line N".
* Python `assert`/`raise` sites become explicit error values; distinct
  source-level assert statements map to distinct error constructors.
-/

namespace Beaker

/-! ### `py_encode_uvarint` (precompile.py lines 389-406)

The Python loop `while integer >= 0b1000_0000: buffer.append(to_byte(integer) |
0b1000_0000); integer >>= 7` followed by `buffer.append(to_byte(integer))`,
where `to_byte` masks to the low 8 bits.  `x >> 7 = x / 128` and
`x & 0xff = x % 256`. -/
def py_encode_uvarint (x : Nat) : List Nat :=
  if h : 128 ≤ x then ((x % 256) ||| 128) :: py_encode_uvarint (x / 128)
  else [x % 256]
termination_by x
decreasing_by exact Nat.div_lt_self (by omega) (by omega)

/-- Little-endian base-128 decoding: reading each byte's low 7 bits. -/
def decode_uvarint : List Nat → Nat
  | [] => 0
  | b :: rest => b % 128 + 128 * decode_uvarint rest

set_option maxRecDepth 2000 in
lemma or_128_of_lt_256 : ∀ y : Nat, y < 256 → y ||| 128 = y % 128 + 128 := by
  decide

lemma py_encode_uvarint_of_ge (x : Nat) (h : 128 ≤ x) :
    py_encode_uvarint x = (x % 128 + 128) :: py_encode_uvarint (x / 128) := by
  rw [py_encode_uvarint]
  have h256 : x % 256 < 256 := Nat.mod_lt _ (by omega)
  rw [dif_pos h, or_128_of_lt_256 _ h256, Nat.mod_mod_of_dvd x (by norm_num)]

lemma py_encode_uvarint_of_lt (x : Nat) (h : x < 128) :
    py_encode_uvarint x = [x] := by
  rw [py_encode_uvarint, dif_neg (by omega), Nat.mod_eq_of_lt (by omega)]

lemma decode_py_encode_uvarint (x : Nat) :
    decode_uvarint (py_encode_uvarint x) = x := by
  induction x using Nat.strong_induction_on with
  | _ x ih =>
    by_cases h : 128 ≤ x
    · rw [py_encode_uvarint_of_ge x h]
      have := ih (x / 128) (Nat.div_lt_self (by omega) (by omega))
      simp only [decode_uvarint, this]
      omega
    · rw [py_encode_uvarint_of_lt x (by omega)]
      simp [decode_uvarint]
      omega

lemma py_encode_uvarint_ne_nil (x : Nat) : py_encode_uvarint x ≠ [] := by
  by_cases h : 128 ≤ x
  · rw [py_encode_uvarint_of_ge x h]; simp
  · rw [py_encode_uvarint_of_lt x (by omega)]; simp

lemma py_encode_uvarint_length_pos (x : Nat) : 0 < (py_encode_uvarint x).length :=
  List.length_pos.mpr (py_encode_uvarint_ne_nil x)

lemma py_encode_uvarint_structure (x : Nat) :
    ∃ init last, py_encode_uvarint x = init ++ [last] ∧ last < 128 ∧
      ∀ b ∈ init, 128 ≤ b ∧ b < 256 := by
  induction x using Nat.strong_induction_on with
  | _ x ih =>
    by_cases h : 128 ≤ x
    · obtain ⟨init, last, heq, hlast, hinit⟩ :=
        ih (x / 128) (Nat.div_lt_self (by omega) (by omega))
      refine ⟨(x % 128 + 128) :: init, last, ?_, hlast, ?_⟩
      · rw [py_encode_uvarint_of_ge x h, heq]; simp
      · intro b hb
        rcases List.mem_cons.mp hb with hb | hb
        · subst hb; constructor <;> omega
        · exact hinit b hb
    · refine ⟨[], x, ?_, by omega, by simp⟩
      rw [py_encode_uvarint_of_lt x (by omega)]; simp

lemma py_encode_uvarint_length_step (x : Nat) (h : 128 ≤ x) :
    (py_encode_uvarint x).length = (py_encode_uvarint (x / 128)).length + 1 := by
  rw [py_encode_uvarint_of_ge x h]
  simp

/-! ### Data model (precompile.py lines 47-57) -/

/-- The `PrecompileTemplateValue` dataclass: name, is_bytes, source line, and the
pc of the variable in the assembled bytecode (0 before assembly). -/
structure PrecompileTemplateValue where
  name : String
  is_bytes : Bool
  line : Nat
  pc : Nat
deriving DecidableEq

/-- A Python argument value passed to `populate_template`: `str | bytes | int`.
Python `int` is modelled as `Nat` (the template arguments are unsigned). -/
inductive TVArg where
  | s (v : String)
  | b (v : List Nat)
  | i (v : Nat)
deriving DecidableEq

/-- UTF-8 encoding of one Unicode scalar value (Python `str.encode("utf-8")`
emits this for each character). -/
def utf8EncodeCharNat (c : Char) : List Nat :=
  let n := c.toNat
  if n < 128 then [n]
  else if n < 2048 then [192 ||| (n >>> 6), 128 ||| (n &&& 63)]
  else if n < 65536 then
    [224 ||| (n >>> 12), 128 ||| ((n >>> 6) &&& 63), 128 ||| (n &&& 63)]
  else
    [240 ||| (n >>> 18), 128 ||| ((n >>> 12) &&& 63),
     128 ||| ((n >>> 6) &&& 63), 128 ||| (n &&& 63)]

/-- Python `s.encode("utf-8")` as a byte list. -/
def utf8 (s : String) : List Nat :=
  (s.data.map utf8EncodeCharNat).flatten

/-! ### `Program.binary` (precompile.py lines 81-84) and `populate_template`
(lines 151-197).

Each Python `assert`/`raise` site is a distinct error constructor:
* `uninitialized` — `assert self.raw_binary` in `Program.binary` (line 83);
  a truthiness test, so it also fires on an empty byte string;
* `assertBinaryNone` — `assert self.raw_binary is not None` (line 160);
* `assertNoTemplates` — `assert len(self._template_values) > 0` (line 161);
* `assertArgCount` — `assert len(args) == len(self._template_values)` (line 162);
* `tealTypeError` — the two `raise TealTypeError` sites (lines 174, 185). -/
inductive PopErr where
  | uninitialized
  | assertBinaryNone
  | assertNoTemplates
  | assertArgCount
  | tealTypeError
deriving DecidableEq

/-- Model of `Program.binary`: `assert self.raw_binary` then `Bytes(self.raw_binary)`.
`raw_binary : Option (List Nat)` is the field initialised to `None`. -/
def Program.binary (raw_binary : Option (List Nat)) : Except PopErr (List Nat) :=
  match raw_binary with
  | none => .error .uninitialized
  | some b => if b = [] then .error .uninitialized else .ok b

/-- The per-argument encoding step of `populate_template` (lines 169-187):
type check against the template value's kind, UTF-8 encode `str`, then
length-prefix byte strings / uvarint-encode integers. -/
def encode_arg (is_bytes : Bool) : TVArg → Except PopErr (List Nat)
  | .i n => if is_bytes then .error .tealTypeError else .ok (py_encode_uvarint n)
  | .s v =>
    if is_bytes then .ok (py_encode_uvarint (utf8 v).length ++ utf8 v)
    else .error .tealTypeError
  | .b v =>
    if is_bytes then .ok (py_encode_uvarint v.length ++ v)
    else .error .tealTypeError

/-- Python list slice assignment `l[pos:pos+1] = new` (line 191): Python clamps
out-of-range slice bounds, which `List.take`/`List.drop` also do. -/
def py_splice (l : List Nat) (pos : Nat) (new : List Nat) : List Nat :=
  l.take pos ++ new ++ l.drop (pos + 1)

/-- The `for idx, tv in enumerate(self._template_values)` loop of
`populate_template` (lines 169-195), with the running `offset`. -/
def populate_loop (binary : List Nat) :
    List PrecompileTemplateValue → List TVArg → Nat → Except PopErr (List Nat)
  | [], _, _ => .ok binary
  | tv :: tvs, arg :: args, offset =>
    match encode_arg tv.is_bytes arg with
    | .error e => .error e
    | .ok curr_val =>
      populate_loop (py_splice binary (tv.pc + offset) curr_val) tvs args
        (offset + (curr_val.length - 1))
  | _ :: _, [], _ => .ok binary

/-- Model of `LSigProgram.populate_template` (lines 151-197). -/
def populate_template (raw_binary : Option (List Nat))
    (tvs : List PrecompileTemplateValue) (args : List TVArg) :
    Except PopErr (List Nat) :=
  match raw_binary with
  | none => .error .assertBinaryNone
  | some binary =>
    if tvs.length = 0 then .error .assertNoTemplates
    else if args.length ≠ tvs.length then .error .assertArgCount
    else populate_loop binary tvs args 0

/-- Does the argument's Python type match the template value's kind
(`str`/`bytes` for a bytes template, `int` for an integer template)? -/
def kind_matches (is_bytes : Bool) : TVArg → Bool
  | .s _ => is_bytes
  | .b _ => is_bytes
  | .i _ => !is_bytes

/-- All positional arguments match the declared kinds (and the two lists have
the same length). -/
def args_ok : List PrecompileTemplateValue → List TVArg → Bool
  | [], [] => true
  | tv :: tvs, a :: args => kind_matches tv.is_bytes a && args_ok tvs args
  | _, _ => false

/-- The encoding of a kind-matching argument (what `curr_val` holds in the
loop body, lines 182 and 187). -/
def encode_val : TVArg → List Nat
  | .s v => py_encode_uvarint (utf8 v).length ++ utf8 v
  | .b v => py_encode_uvarint v.length ++ v
  | .i n => py_encode_uvarint n

lemma encode_arg_of_kind_matches {is_bytes : Bool} {a : TVArg}
    (h : kind_matches is_bytes a = true) :
    encode_arg is_bytes a = .ok (encode_val a) := by
  cases a <;> simp [kind_matches] at h <;> simp [encode_arg, encode_val, h]

lemma encode_val_ne_nil (a : TVArg) : encode_val a ≠ [] := by
  intro h
  cases a with
  | s v => exact py_encode_uvarint_ne_nil _ (List.append_eq_nil.mp h).1
  | b v => exact py_encode_uvarint_ne_nil _ (List.append_eq_nil.mp h).1
  | i n => exact py_encode_uvarint_ne_nil _ h

lemma encode_val_length_pos (a : TVArg) : 0 < (encode_val a).length :=
  List.length_pos.mpr (encode_val_ne_nil a)

/-! ### `populate_template_expr` (precompile.py lines 199-255)

Evaluation semantics, at concrete argument values, of the PyTeal expression
the method builds.  AVM byte strings are `List Nat`; `Substring(b, s, e)` and
`Suffix(b, s)` fail at runtime when their bounds are out of range, hence
`Option`.  The `offset` scratch variable of the source (line 241) is stored
but never read, so it does not influence the produced bytes and has no
counterpart here. -/
def substring_sem (b : List Nat) (s e : Nat) : Option (List Nat) :=
  if s ≤ e ∧ e ≤ b.length then some ((b.drop s).take (e - s)) else none

def suffix_sem (b : List Nat) (s : Nat) : Option (List Nat) :=
  if s ≤ b.length then some (b.drop s) else none

/-- Modelled from the spec: the expression builder `encode_uvarint` imported
from `beaker.lib.strings` (line 29) is not under `src/`.  Per the spec (§6,
"Variable-length integer encoding"), the pure byte-encoding function and the
bytecode-expression builder must produce identical results for the same
integer; its input is an AVM uint64. -/
def encode_uvarint_expr (n : Nat) : Option (List Nat) :=
  if n < 2 ^ 64 then some (py_encode_uvarint n) else none

/-- The per-argument `curr_val.store(...)` expression (lines 227-229):
`Concat(encode_uvarint(Len(arg)), arg)` for a bytes template value,
`encode_uvarint(arg)` for an integer one.  Supplying an expression of the
wrong TEAL type is a construction-time `TealTypeError` (`none`). -/
def encode_arg_expr (is_bytes : Bool) : TVArg → Option (List Nat)
  | .s v =>
    if is_bytes then (encode_uvarint_expr (utf8 v).length).map (· ++ utf8 v)
    else none
  | .b v =>
    if is_bytes then (encode_uvarint_expr v.length).map (· ++ v)
    else none
  | .i n => if is_bytes then none else encode_uvarint_expr n

/-- The loop of `populate_template_expr` (lines 223-243) plus the final
suffix append (line 247), tracking the `buff` and `last_pos` scratch
variables. -/
def populate_expr_loop (binary : List Nat) :
    List PrecompileTemplateValue → List TVArg → List Nat → Nat → Option (List Nat)
  | [], _, buff, last_pos => (suffix_sem binary last_pos).map (buff ++ ·)
  | tv :: tvs, a :: args, buff, last_pos =>
    match encode_arg_expr tv.is_bytes a, substring_sem binary last_pos tv.pc with
    | some curr_val, some seg =>
      populate_expr_loop binary tvs args (buff ++ (seg ++ curr_val)) (tv.pc + 1)
    | _, _ => none
  | _ :: _, [], _, _ => none

/-- Model of `LSigProgram.populate_template_expr` (lines 199-255): the construction
asserts `raw_binary is not None`, `len(self._template_values)` and
`len(args) == len(self._template_values)`; the `self.binary` property used by
the slices additionally asserts the raw binary is truthy (non-empty). -/
def populate_template_expr (raw_binary : Option (List Nat))
    (tvs : List PrecompileTemplateValue) (args : List TVArg) : Option (List Nat) :=
  match raw_binary with
  | none => none
  | some binary =>
    if binary = [] then none
    else if tvs.length = 0 then none
    else if args.length ≠ tvs.length then none
    else populate_expr_loop binary tvs args [] 0

/-- The argument value fits in the AVM: integers are uint64, byte strings
have a uint64 length. -/
def avm_representable : TVArg → Bool
  | .i n => decide (n < 2 ^ 64)
  | .s v => decide ((utf8 v).length < 2 ^ 64)
  | .b v => decide (v.length < 2 ^ 64)

/-- The template-value pcs are strictly increasing from `last_pos` and lie
inside the assembled binary (each placeholder's zero literal is the byte at
index `pc`). -/
def pcs_valid (len : Nat) : Nat → List PrecompileTemplateValue → Bool
  | last_pos, [] => decide (last_pos ≤ len)
  | last_pos, tv :: tvs =>
    (decide (last_pos ≤ tv.pc) && decide (tv.pc < len)) && pcs_valid len (tv.pc + 1) tvs

lemma encode_arg_expr_of_ok {is_bytes : Bool} {a : TVArg}
    (hk : kind_matches is_bytes a = true) (hr : avm_representable a = true) :
    encode_arg_expr is_bytes a = some (encode_val a) := by
  cases a <;>
    simp_all [kind_matches, avm_representable, encode_arg_expr, encode_val,
      encode_uvarint_expr]

lemma args_ok_length : ∀ {tvs : List PrecompileTemplateValue} {args : List TVArg},
    args_ok tvs args = true → args.length = tvs.length
  | [], [], _ => rfl
  | [], _ :: _, h => by simp [args_ok] at h
  | _ :: _, [], h => by simp [args_ok] at h
  | _ :: tvs, _ :: args, h => by
    simp only [args_ok, Bool.and_eq_true] at h
    simp [args_ok_length h.2]

lemma py_splice_append_view (buff binary : List Nat) (last_pos offset pc : Nat)
    (cv : List Nat) (hlp : last_pos ≤ pc) (_hpc : pc ≤ binary.length)
    (hbuff : buff.length = last_pos + offset) :
    py_splice (buff ++ binary.drop last_pos) (pc + offset) cv =
      (buff ++ (((binary.drop last_pos).take (pc - last_pos)) ++ cv)) ++
        binary.drop (pc + 1) := by
  have hpos : pc + offset = buff.length + (pc - last_pos) := by omega
  have hpos' : pc + offset + 1 = buff.length + (pc - last_pos + 1) := by omega
  unfold py_splice
  rw [hpos, List.take_append, ← hpos, hpos', List.drop_append, List.drop_drop]
  have h3 : last_pos + (pc - last_pos + 1) = pc + 1 := by omega
  rw [h3]
  simp [List.append_assoc]

/-- The crux of the patch-equivalence property: the in-place byte patcher and
the symbolic buffer-concatenation patcher agree step by step.  The invariant
relating the two states is `working buffer = buff ++ binary.drop last_pos`
with `buff.length = last_pos + offset`. -/
lemma populate_loops_agree (binary : List Nat) :
    ∀ (tvs : List PrecompileTemplateValue) (args : List TVArg)
      (buff : List Nat) (offset last_pos : Nat),
      args_ok tvs args = true →
      args.all avm_representable = true →
      pcs_valid binary.length last_pos tvs = true →
      buff.length = last_pos + offset →
      ∃ out,
        populate_loop (buff ++ binary.drop last_pos) tvs args offset = .ok out ∧
        populate_expr_loop binary tvs args buff last_pos = some out := by
  intro tvs
  induction tvs with
  | nil =>
    intro args buff offset last_pos hok _ hpcs _
    cases args with
    | nil =>
      refine ⟨buff ++ binary.drop last_pos, rfl, ?_⟩
      simp only [pcs_valid, decide_eq_true_eq] at hpcs
      simp [populate_expr_loop, suffix_sem, hpcs]
    | cons a args => simp [args_ok] at hok
  | cons tv tvs ih =>
    intro args buff offset last_pos hok hrep hpcs hbuff
    cases args with
    | nil => simp [args_ok] at hok
    | cons a args =>
      simp only [args_ok, Bool.and_eq_true] at hok
      simp only [List.all_cons, Bool.and_eq_true] at hrep
      simp only [pcs_valid, Bool.and_eq_true, decide_eq_true_eq] at hpcs
      obtain ⟨⟨hlp, hpc⟩, hpcs'⟩ := hpcs
      have henc : encode_arg tv.is_bytes a = .ok (encode_val a) :=
        encode_arg_of_kind_matches hok.1
      have hencx : encode_arg_expr tv.is_bytes a = some (encode_val a) :=
        encode_arg_expr_of_ok hok.1 hrep.1
      have hsub : substring_sem binary last_pos tv.pc =
          some ((binary.drop last_pos).take (tv.pc - last_pos)) := by
        simp [substring_sem, hlp, Nat.le_of_lt hpc]
      set cv := encode_val a with hcv
      have hcvlen : 0 < cv.length := encode_val_length_pos a
      set seg := (binary.drop last_pos).take (tv.pc - last_pos) with hseg
      have hseglen : seg.length = tv.pc - last_pos := by
        simp only [hseg, List.length_take, List.length_drop]
        omega
      have hstep := py_splice_append_view buff binary last_pos offset tv.pc cv
        hlp (Nat.le_of_lt hpc) hbuff
      have hbuff' : (buff ++ (seg ++ cv)).length = (tv.pc + 1) +
          (offset + (cv.length - 1)) := by
        simp only [List.length_append, hseglen]
        omega
      obtain ⟨out, h1, h2⟩ := ih args (buff ++ (seg ++ cv))
        (offset + (cv.length - 1)) (tv.pc + 1) hok.2 hrep.2 hpcs' hbuff'
      refine ⟨out, ?_, ?_⟩
      · simp only [populate_loop, henc]
        rw [hstep]
        exact h1
      · simp only [populate_expr_loop, hencx, hsub]
        exact h2

/-- C1: for every assembled `LSigProgram` with at least one declared template
value and every argument tuple of matching length and kinds (with
AVM-representable values and the assembled placeholder pcs in strictly
ascending order inside the binary), the concrete byte sequence returned by
`populate_template` is byte-for-byte the sequence produced by evaluating the
expression built by `populate_template_expr`.  The hypotheses allow a
placeholder at the very start or end of the binary, mixed byte and integer
kinds, and arguments whose encoding is longer than one byte. -/
theorem populate_template_expr_equiv (binary : List Nat)
    (tvs : List PrecompileTemplateValue) (args : List TVArg)
    (hne : tvs ≠ []) (hok : args_ok tvs args = true)
    (hrep : args.all avm_representable = true)
    (hpcs : pcs_valid binary.length 0 tvs = true) :
    ∃ out, populate_template (some binary) tvs args = .ok out ∧
      populate_template_expr (some binary) tvs args = some out := by
  have hlen : args.length = tvs.length := args_ok_length hok
  have htvs : tvs.length ≠ 0 := fun h => hne (List.length_eq_zero.mp h)
  have hbin : binary ≠ [] := by
    intro h
    obtain ⟨tv, tvs', rfl⟩ := List.exists_cons_of_ne_nil hne
    simp only [pcs_valid, Bool.and_eq_true, decide_eq_true_eq] at hpcs
    subst h
    simp at hpcs
  obtain ⟨out, h1, h2⟩ := populate_loops_agree binary tvs args [] 0 0 hok hrep
    hpcs (by simp)
  refine ⟨out, ?_, ?_⟩
  · simp only [populate_template, if_neg htvs, hlen]
    simpa using h1
  · simp only [populate_template_expr, if_neg hbin, if_neg htvs, hlen]
    simpa using h2

/-- Witness for C1 at a concrete input: binary `[1,2,3,4,5]`, a byte-kind
placeholder at pc 1 and an integer-kind one at pc 3, with a 2-byte string
argument and the integer 300 (whose varint encoding is 2 bytes long). -/
theorem populate_template_expr_equiv_witness :
    ∃ out,
      populate_template (some [1, 2, 3, 4, 5])
        [⟨"A", true, 0, 1⟩, ⟨"B", false, 1, 3⟩] [.b [9, 9], .i 300] = .ok out ∧
      populate_template_expr (some [1, 2, 3, 4, 5])
        [⟨"A", true, 0, 1⟩, ⟨"B", false, 1, 3⟩] [.b [9, 9], .i 300] = some out :=
  populate_template_expr_equiv [1, 2, 3, 4, 5]
    [⟨"A", true, 0, 1⟩, ⟨"B", false, 1, 3⟩] [.b [9, 9], .i 300]
    (by decide) (by decide) (by decide) (by decide)

/-! ### Offset bookkeeping of `populate_template` (claim C2) -/

/-- The encodings of the arguments, in order (`curr_val` per iteration). -/
def encoded_args (args : List TVArg) : List (List Nat) := args.map encode_val

/-- Sequentially splice `(position, bytes)` pairs into a working buffer. -/
def splice_all : List Nat → List (Nat × List Nat) → List Nat
  | binary, [] => binary
  | binary, pe :: rest => splice_all (py_splice binary pe.1 pe.2) rest

/-- The effective patch positions: each template value's declared pc plus the
running offset, which grows by `encoded length - 1` per processed value. -/
def patch_positions : Nat → List PrecompileTemplateValue → List (List Nat) → List Nat
  | _, [], _ => []
  | _, _ :: _, [] => []
  | offset, tv :: tvs, e :: encs =>
    (tv.pc + offset) :: patch_positions (offset + (e.length - 1)) tvs encs

lemma populate_loop_eq_splice_all :
    ∀ (tvs : List PrecompileTemplateValue) (args : List TVArg)
      (binary : List Nat) (offset : Nat), args_ok tvs args = true →
      populate_loop binary tvs args offset =
        .ok (splice_all binary
          ((patch_positions offset tvs (encoded_args args)).zip
            (encoded_args args))) := by
  intro tvs
  induction tvs with
  | nil =>
    intro args binary offset hok
    cases args with
    | nil => simp [populate_loop, encoded_args, patch_positions, splice_all]
    | cons a args => simp [args_ok] at hok
  | cons tv tvs ih =>
    intro args binary offset hok
    cases args with
    | nil => simp [args_ok] at hok
    | cons a args =>
      simp only [args_ok, Bool.and_eq_true] at hok
      simp only [populate_loop, encode_arg_of_kind_matches hok.1, encoded_args,
        List.map_cons, patch_positions, List.zip_cons_cons, splice_all]
      exact ih args _ _ hok.2

lemma patch_positions_getD :
    ∀ (k : Nat) (tvs : List PrecompileTemplateValue) (encs : List (List Nat))
      (offset : Nat), k < tvs.length → tvs.length = encs.length →
      (patch_positions offset tvs encs).getD k 0 =
        (tvs.getD k ⟨"", false, 0, 0⟩).pc + offset +
          ((encs.take k).map (fun e => e.length - 1)).sum := by
  intro k
  induction k with
  | zero =>
    intro tvs encs offset hk hlen
    match tvs, encs with
    | tv :: tvs, e :: encs => simp [patch_positions]
    | tv :: tvs, [] => simp at hlen
    | [], _ => simp at hk
  | succ k ih =>
    intro tvs encs offset hk hlen
    match tvs, encs with
    | tv :: tvs, e :: encs =>
      simp only [patch_positions, List.getD_cons_succ, List.take_succ_cons,
        List.map_cons, List.sum_cons]
      rw [ih tvs encs (offset + (e.length - 1)) (by simpa using hk)
        (by simpa using hlen)]
      omega
    | tv :: tvs, [] => simp at hlen
    | [], _ => simp at hk

lemma py_splice_length (l : List Nat) (pos : Nat) (new : List Nat)
    (h : pos < l.length) :
    (py_splice l pos new).length = l.length - 1 + new.length := by
  simp only [py_splice, List.length_append, List.length_take, List.length_drop]
  omega

lemma populate_loop_length :
    ∀ (tvs : List PrecompileTemplateValue) (args : List TVArg)
      (binary : List Nat) (offset L : Nat), args_ok tvs args = true →
      (∀ tv ∈ tvs, tv.pc < L) → binary.length = L + offset →
      ∃ out, populate_loop binary tvs args offset = .ok out ∧
        out.length = L + offset +
          ((encoded_args args).map (fun e => e.length - 1)).sum := by
  intro tvs
  induction tvs with
  | nil =>
    intro args binary offset L hok _ hbin
    cases args with
    | nil =>
      exact ⟨binary, rfl, by simp [encoded_args, hbin]⟩
    | cons a args => simp [args_ok] at hok
  | cons tv tvs ih =>
    intro args binary offset L hok hpc hbin
    cases args with
    | nil => simp [args_ok] at hok
    | cons a args =>
      simp only [args_ok, Bool.and_eq_true] at hok
      have hcvlen : 0 < (encode_val a).length := encode_val_length_pos a
      have hpos : tv.pc + offset < binary.length := by
        have := hpc tv (by simp)
        omega
      have hlen' : (py_splice binary (tv.pc + offset) (encode_val a)).length =
          L + (offset + ((encode_val a).length - 1)) := by
        rw [py_splice_length _ _ _ hpos]
        omega
      obtain ⟨out, h1, h2⟩ := ih args (py_splice binary (tv.pc + offset)
        (encode_val a)) (offset + ((encode_val a).length - 1)) L hok.2
        (fun t ht => hpc t (by simp [ht])) hlen'
      refine ⟨out, ?_, ?_⟩
      · simp only [populate_loop, encode_arg_of_kind_matches hok.1]
        exact h1
      · rw [h2]
        simp only [encoded_args, List.map_cons, List.sum_cons]
        omega

/-- C2: `populate_template` processes the template values in declared order
with a running offset starting at 0: the result equals splicing, in order,
the i-th encoded value at position `pc_i + offset_i` (replacing the one
placeholder byte there), where `offset_i` is the sum over the earlier values
of `encoded length - 1`; and when every declared pc lies inside the binary,
the output length is the binary length plus the total of those deltas,
confirming each splice consumed exactly the single placeholder byte. -/
theorem populate_template_offset_bookkeeping (binary : List Nat)
    (tvs : List PrecompileTemplateValue) (args : List TVArg)
    (hne : tvs ≠ []) (hok : args_ok tvs args = true) :
    (populate_template (some binary) tvs args =
      .ok (splice_all binary
        ((patch_positions 0 tvs (encoded_args args)).zip (encoded_args args)))) ∧
    (∀ k, k < tvs.length →
      (patch_positions 0 tvs (encoded_args args)).getD k 0 =
        (tvs.getD k ⟨"", false, 0, 0⟩).pc +
          (((encoded_args args).take k).map (fun e => e.length - 1)).sum) ∧
    ((∀ tv ∈ tvs, tv.pc < binary.length) →
      ∀ out, populate_template (some binary) tvs args = .ok out →
        out.length = binary.length +
          ((encoded_args args).map (fun e => e.length - 1)).sum) := by
  have hlen : args.length = tvs.length := args_ok_length hok
  have htvs : tvs.length ≠ 0 := fun h => hne (List.length_eq_zero.mp h)
  have hrun : populate_template (some binary) tvs args =
      populate_loop binary tvs args 0 := by
    simp only [populate_template]
    rw [if_neg htvs, if_neg (by omega : ¬args.length ≠ tvs.length)]
  refine ⟨?_, ?_, ?_⟩
  · rw [hrun]
    exact populate_loop_eq_splice_all tvs args binary 0 hok
  · intro k hk
    rw [patch_positions_getD k tvs (encoded_args args) 0 hk
      (by simp [encoded_args, hlen])]
    omega
  · intro hpc out hout
    obtain ⟨out', h1, h2⟩ := populate_loop_length tvs args binary 0
      binary.length hok hpc (by omega)
    rw [hrun, h1] at hout
    cases hout
    omega

/-- Witness for C2 at the concrete input of the C1 witness: the first
encoding is `[2, 9, 9]` (3 bytes), so the second placeholder's effective
position is its pc 3 plus offset 2. -/
theorem populate_template_offset_bookkeeping_witness :
    (populate_template (some [1, 2, 3, 4, 5])
        [⟨"A", true, 0, 1⟩, ⟨"B", false, 1, 3⟩] [.b [9, 9], .i 300] =
      .ok (splice_all [1, 2, 3, 4, 5]
        ((patch_positions 0 [⟨"A", true, 0, 1⟩, ⟨"B", false, 1, 3⟩]
          (encoded_args [.b [9, 9], .i 300])).zip
            (encoded_args [.b [9, 9], .i 300])))) ∧
    (∀ k, k < ([⟨"A", true, 0, 1⟩, ⟨"B", false, 1, 3⟩] :
        List PrecompileTemplateValue).length →
      (patch_positions 0 [⟨"A", true, 0, 1⟩, ⟨"B", false, 1, 3⟩]
        (encoded_args [.b [9, 9], .i 300])).getD k 0 =
        (([⟨"A", true, 0, 1⟩, ⟨"B", false, 1, 3⟩] :
          List PrecompileTemplateValue).getD k ⟨"", false, 0, 0⟩).pc +
          (((encoded_args [.b [9, 9], .i 300]).take k).map
            (fun e => e.length - 1)).sum) ∧
    ((∀ tv ∈ ([⟨"A", true, 0, 1⟩, ⟨"B", false, 1, 3⟩] :
        List PrecompileTemplateValue), tv.pc < ([1, 2, 3, 4, 5] :
          List Nat).length) →
      ∀ out, populate_template (some [1, 2, 3, 4, 5])
          [⟨"A", true, 0, 1⟩, ⟨"B", false, 1, 3⟩] [.b [9, 9], .i 300] =
            .ok out →
        out.length = ([1, 2, 3, 4, 5] : List Nat).length +
          ((encoded_args [.b [9, 9], .i 300]).map
            (fun e => e.length - 1)).sum) :=
  populate_template_offset_bookkeeping [1, 2, 3, 4, 5]
    [⟨"A", true, 0, 1⟩, ⟨"B", false, 1, 3⟩] [.b [9, 9], .i 300]
    (by decide) (by decide)

/-! ### Claims C3, C8, C9, C10 -/

/-- C3: `py_encode_uvarint` produces the little-endian base-128 encoding with
the continuation bit set on every byte but the last: decoding returns the
input, values below 128 take one byte, values in `[128, 16383]` take two, and
in general the length grows by one byte per 7 bits of magnitude. -/
theorem py_encode_uvarint_spec (x : Nat) (hx : x < 2 ^ 64) :
    decode_uvarint (py_encode_uvarint x) = x ∧
    (∃ init last, py_encode_uvarint x = init ++ [last] ∧ last < 128 ∧
      ∀ b ∈ init, 128 ≤ b ∧ b < 256) ∧
    (x < 128 → (py_encode_uvarint x).length = 1) ∧
    (128 ≤ x → x < 16384 → (py_encode_uvarint x).length = 2) ∧
    (128 ≤ x → (py_encode_uvarint x).length =
      (py_encode_uvarint (x / 128)).length + 1) := by
  refine ⟨decode_py_encode_uvarint x, py_encode_uvarint_structure x, ?_, ?_,
    py_encode_uvarint_length_step x⟩
  · intro h
    rw [py_encode_uvarint_of_lt x h]
    rfl
  · intro h1 h2
    rw [py_encode_uvarint_of_ge x h1,
      py_encode_uvarint_of_lt (x / 128) (by omega)]
    rfl

/-- Witness for C3 at `x = 300`: the round trip holds and the encoding is two
bytes long. -/
theorem py_encode_uvarint_spec_witness :
    decode_uvarint (py_encode_uvarint 300) = 300 ∧
    (py_encode_uvarint 300).length = 2 :=
  ⟨(py_encode_uvarint_spec 300 (by decide)).1,
   (py_encode_uvarint_spec 300 (by decide)).2.2.2.1 (by decide) (by decide)⟩

lemma encode_arg_of_kind_mismatch {is_bytes : Bool} {a : TVArg}
    (h : kind_matches is_bytes a = false) :
    encode_arg is_bytes a = .error .tealTypeError := by
  cases a <;> simp_all [kind_matches, encode_arg]

lemma populate_loop_ok_or_type_error :
    ∀ (tvs : List PrecompileTemplateValue) (args : List TVArg)
      (binary : List Nat) (offset : Nat), args.length = tvs.length →
      (args_ok tvs args = true →
        ∃ out, populate_loop binary tvs args offset = .ok out) ∧
      (args_ok tvs args = false →
        populate_loop binary tvs args offset = .error .tealTypeError) := by
  intro tvs
  induction tvs with
  | nil =>
    intro args binary offset hlen
    cases args with
    | nil => exact ⟨fun _ => ⟨binary, rfl⟩, fun h => by simp [args_ok] at h⟩
    | cons a args => simp at hlen
  | cons tv tvs ih =>
    intro args binary offset hlen
    cases args with
    | nil => simp at hlen
    | cons a args =>
      by_cases hkm : kind_matches tv.is_bytes a = true
      · constructor
        · intro hok
          simp only [args_ok, hkm, Bool.true_and] at hok
          obtain ⟨out, h⟩ := (ih args _ _ (by simpa using hlen)).1 hok
          exact ⟨out, by simp only [populate_loop,
            encode_arg_of_kind_matches hkm]; exact h⟩
        · intro hok
          simp only [args_ok, hkm, Bool.true_and] at hok
          simp only [populate_loop, encode_arg_of_kind_matches hkm]
          exact (ih args _ _ (by simpa using hlen)).2 hok
      · rw [Bool.not_eq_true] at hkm
        constructor
        · intro hok
          simp [args_ok, hkm] at hok
        · intro _
          simp only [populate_loop, encode_arg_of_kind_mismatch hkm]

lemma args_ok_eq_false_iff :
    ∀ (tvs : List PrecompileTemplateValue) (args : List TVArg),
      args.length = tvs.length →
      (args_ok tvs args = false ↔
        ∃ i, i < tvs.length ∧
          kind_matches ((tvs.getD i ⟨"", false, 0, 0⟩).is_bytes)
            (args.getD i (TVArg.i 0)) = false) := by
  intro tvs
  induction tvs with
  | nil =>
    intro args hlen
    cases args with
    | nil => simp [args_ok]
    | cons a args => simp at hlen
  | cons tv tvs ih =>
    intro args hlen
    cases args with
    | nil => simp at hlen
    | cons a args =>
      rw [show args_ok (tv :: tvs) (a :: args) =
        (kind_matches tv.is_bytes a && args_ok tvs args) from rfl,
        Bool.and_eq_false_iff, ih args (by simpa using hlen)]
      constructor
      · rintro (h | ⟨i, hi, h⟩)
        · exact ⟨0, by simp, by simpa using h⟩
        · exact ⟨i + 1, by simpa using hi, by simpa using h⟩
      · rintro ⟨i, hi, h⟩
        cases i with
        | zero => exact Or.inl (by simpa using h)
        | succ i => exact Or.inr ⟨i, by simpa using hi, by simpa using h⟩

/-- C8: with the declared number of arguments, `populate_template` raises a
type error exactly when some position pairs an integer argument with a
byte-kind template value or a non-integer argument with an integer-kind one
(no implicit coercion); a `str` argument for a byte-kind placeholder is
accepted and encoded as UTF-8 bytes, and every accepted byte string is
encoded as the uvarint of its length followed by its raw bytes. -/
theorem populate_template_type_errors (binary : List Nat)
    (tvs : List PrecompileTemplateValue) (args : List TVArg)
    (hne : tvs ≠ []) (hlen : args.length = tvs.length) :
    (populate_template (some binary) tvs args = .error .tealTypeError ↔
      ∃ i, i < tvs.length ∧
        kind_matches ((tvs.getD i ⟨"", false, 0, 0⟩).is_bytes)
          (args.getD i (TVArg.i 0)) = false) ∧
    (∀ s, encode_arg true (.s s) =
      .ok (py_encode_uvarint (utf8 s).length ++ utf8 s)) ∧
    (∀ bs, encode_arg true (.b bs) = .ok (py_encode_uvarint bs.length ++ bs)) := by
  have htvs : tvs.length ≠ 0 := fun h => hne (List.length_eq_zero.mp h)
  have hrun : populate_template (some binary) tvs args =
      populate_loop binary tvs args 0 := by
    simp only [populate_template]
    rw [if_neg htvs, if_neg (by omega : ¬args.length ≠ tvs.length)]
  refine ⟨?_, fun s => by simp [encode_arg], fun bs => by simp [encode_arg]⟩
  rw [hrun, ← args_ok_eq_false_iff tvs args hlen]
  constructor
  · intro h
    cases hok : args_ok tvs args with
    | false => rfl
    | true =>
      obtain ⟨out, hout⟩ := (populate_loop_ok_or_type_error tvs args binary 0
        hlen).1 hok
      rw [hout] at h
      exact absurd h (by simp)
  · intro h
    exact (populate_loop_ok_or_type_error tvs args binary 0 hlen).2 h

/-- Witness for C8: one byte-kind template value with an integer argument is
rejected with a type error (position 0 mismatches). -/
theorem populate_template_type_errors_witness :
    (populate_template (some [0]) [⟨"T", true, 0, 0⟩] [.i 5] =
        .error .tealTypeError ↔
      ∃ i, i < ([⟨"T", true, 0, 0⟩] : List PrecompileTemplateValue).length ∧
        kind_matches ((([⟨"T", true, 0, 0⟩] :
          List PrecompileTemplateValue).getD i ⟨"", false, 0, 0⟩).is_bytes)
          (([TVArg.i 5]).getD i (TVArg.i 0)) = false) ∧
    (∀ s, encode_arg true (.s s) =
      .ok (py_encode_uvarint (utf8 s).length ++ utf8 s)) ∧
    (∀ bs, encode_arg true (.b bs) = .ok (py_encode_uvarint bs.length ++ bs)) :=
  populate_template_type_errors [0] [⟨"T", true, 0, 0⟩] [.i 5]
    (by decide) (by decide)

lemma encode_arg_error_eq {is_bytes : Bool} {a : TVArg} {e : PopErr}
    (h : encode_arg is_bytes a = .error e) : e = .tealTypeError := by
  cases a <;> simp only [encode_arg] at h <;> split at h <;> simp_all

lemma populate_loop_ne_argcount :
    ∀ (tvs : List PrecompileTemplateValue) (args : List TVArg)
      (binary : List Nat) (offset : Nat),
      populate_loop binary tvs args offset ≠ .error .assertArgCount := by
  intro tvs
  induction tvs with
  | nil => intro args binary offset h; simp [populate_loop] at h
  | cons tv tvs ih =>
    intro args binary offset h
    cases args with
    | nil => simp [populate_loop] at h
    | cons a args =>
      simp only [populate_loop] at h
      revert h
      cases henc : encode_arg tv.is_bytes a with
      | error e =>
        have := encode_arg_error_eq henc
        subst this
        simp
      | ok cv => exact ih args _ _

/-- C9 (amended): when at least one template value is declared,
`populate_template` fails with the argument-count assertion exactly when the
number of supplied arguments differs from the number of declared template
values; with zero declared template values it instead always fails with the
`len(self._template_values) > 0` assertion, whatever the argument count. -/
theorem populate_template_argcount (binary : List Nat)
    (tvs : List PrecompileTemplateValue) (args : List TVArg) :
    (tvs ≠ [] →
      (populate_template (some binary) tvs args = .error .assertArgCount ↔
        args.length ≠ tvs.length)) ∧
    (tvs = [] →
      populate_template (some binary) tvs args = .error .assertNoTemplates) := by
  constructor
  · intro hne
    have htvs : tvs.length ≠ 0 := fun h => hne (List.length_eq_zero.mp h)
    constructor
    · intro h
      by_contra hlen
      rw [show populate_template (some binary) tvs args =
          populate_loop binary tvs args 0 by
        simp only [populate_template]
        rw [if_neg htvs, if_neg (by omega : ¬args.length ≠ tvs.length)]] at h
      exact populate_loop_ne_argcount tvs args binary 0 h
    · intro hdiff
      simp only [populate_template]
      rw [if_neg htvs, if_pos hdiff]
  · intro h
    subst h
    simp [populate_template]

/-- Counterexample for C9 as stated: with zero declared template values and
one supplied argument the counts differ, yet the failure raised is the
non-emptiness assertion (line 161), not the argument-count assertion
(line 162). -/
theorem populate_template_argcount_counterexample :
    populate_template (some [0]) [] [.i 0] = .error .assertNoTemplates ∧
    ([TVArg.i 0].length ≠ ([] : List PrecompileTemplateValue).length) ∧
    PopErr.assertNoTemplates ≠ PopErr.assertArgCount := by
  refine ⟨by simp [populate_template], by decide, by decide⟩

/-- Witness for C9 (amended) at a concrete input: one declared template value
and zero arguments fail with the argument-count assertion. -/
theorem populate_template_argcount_witness :
    populate_template (some [7]) [⟨"T", false, 0, 0⟩] [] =
      .error .assertArgCount :=
  ((populate_template_argcount [7] [⟨"T", false, 0, 0⟩] []).1
    (by decide)).mpr (by decide)

/-- C10: `Program.binary` guards with `assert self.raw_binary`, a truthiness
test: it fails not only before assembly (`raw_binary = None`) but also when
assembly stored a zero-length binary; it succeeds exactly on a stored
non-empty binary. -/
theorem binary_truthiness_guard :
    (Program.binary (some []) = .error .uninitialized) ∧
    (Program.binary none = .error .uninitialized) ∧
    (∀ bs : List Nat, bs ≠ [] → Program.binary (some bs) = .ok bs) ∧
    (∀ rb : Option (List Nat),
      (∃ out, Program.binary rb = .ok out) ↔ ∃ bs, rb = some bs ∧ bs ≠ []) := by
  refine ⟨by simp [Program.binary], rfl, fun bs h => by simp [Program.binary, h],
    fun rb => ?_⟩
  cases rb with
  | none => simp [Program.binary]
  | some bs =>
    by_cases h : bs = []
    · subst h
      simp [Program.binary]
    · simp [Program.binary, h]

/-- Witness for C10: a one-byte stored binary is returned as is. -/
theorem binary_truthiness_guard_witness :
    Program.binary (some [1]) = .ok [1] :=
  binary_truthiness_guard.2.2.1 [1] (by decide)

/-! ### `LSigProgram.assemble` (precompile.py lines 132-138) and
`AppProgram.program_pages` (lines 92-99) -/

/-- The loop of `LSigProgram.assemble` after the external compilation: for
each template value, `tv.pc = self.source_map.get_pcs_for_line(tv.line)[0] + 1`
(the `+1` accounts for the one-byte pushbytes/pushint opcode).  The external
source map is the function `first_pc`. -/
def lsig_assemble (first_pc : Nat → Nat)
    (tvs : List PrecompileTemplateValue) : List PrecompileTemplateValue :=
  tvs.map fun tv => { tv with pc := first_pc tv.line + 1 }

/-- C5: after `assemble`, every recorded template value is its pre-assembly
value with the pc field set to the first program counter the source map
reports for its source line, plus one. -/
theorem lsig_assemble_pc (first_pc : Nat → Nat)
    (tvs : List PrecompileTemplateValue) :
    (lsig_assemble first_pc tvs).length = tvs.length ∧
    (∀ tv ∈ lsig_assemble first_pc tvs, tv.pc = first_pc tv.line + 1) ∧
    (∀ i, i < tvs.length →
      (lsig_assemble first_pc tvs).getD i ⟨"", false, 0, 0⟩ =
        { tvs.getD i ⟨"", false, 0, 0⟩ with
          pc := first_pc ((tvs.getD i ⟨"", false, 0, 0⟩).line) + 1 }) := by
  refine ⟨by simp [lsig_assemble], ?_, ?_⟩
  · intro tv htv
    obtain ⟨tv0, _, rfl⟩ := List.mem_map.mp htv
    rfl
  · induction tvs with
    | nil => intro i hi; simp at hi
    | cons tv tvs ih =>
      intro i hi
      cases i with
      | zero => rfl
      | succ i => exact ih i (by simpa using hi)

/-- Witness for C5: with source map `fun n => 10 * n` and one template value
on line 3, the recorded pc is 31. -/
theorem lsig_assemble_pc_witness :
    (lsig_assemble (fun n => 10 * n) [⟨"T", true, 3, 0⟩]).getD 0
        ⟨"", false, 0, 0⟩ =
      { ([⟨"T", true, 3, 0⟩] : List PrecompileTemplateValue).getD 0
          ⟨"", false, 0, 0⟩ with
        pc := (fun n => 10 * n)
          ((([⟨"T", true, 3, 0⟩] : List PrecompileTemplateValue).getD 0
            ⟨"", false, 0, 0⟩).line) + 1 } :=
  (lsig_assemble_pc (fun n => 10 * n) [⟨"T", true, 3, 0⟩]).2.2 0 (by decide)

/-- The constant `APP_PAGE_MAX_SIZE` from `algosdk.constants` (2048 bytes per program
page). -/
def APP_PAGE_MAX_SIZE : Nat := 2048

/-- Model of `AppProgram.program_pages` (lines 92-99): the Python comprehension
`[raw[i : i + APP_PAGE_MAX_SIZE] for i in range(0, len(raw), APP_PAGE_MAX_SIZE)]`
(called once `assert self.raw_binary is not None` has passed). -/
def program_pages (raw : List Nat) : List (List Nat) :=
  if h : raw = [] then []
  else raw.take APP_PAGE_MAX_SIZE :: program_pages (raw.drop APP_PAGE_MAX_SIZE)
termination_by raw.length
decreasing_by
  simp only [List.length_drop, APP_PAGE_MAX_SIZE]
  have : raw.length ≠ 0 := fun hh => h (List.length_eq_zero.mp hh)
  omega

lemma program_pages_flatten (raw : List Nat) :
    (program_pages raw).flatten = raw := by
  induction raw using program_pages.induct with
  | case1 => simp [program_pages]
  | case2 raw h ih =>
    rw [program_pages, dif_neg h]
    simp [ih]

lemma program_pages_mem_length (raw : List Nat) :
    ∀ c ∈ program_pages raw, c.length ≤ APP_PAGE_MAX_SIZE ∧ c ≠ [] := by
  induction raw using program_pages.induct with
  | case1 => simp [program_pages]
  | case2 raw h ih =>
    rw [program_pages, dif_neg h]
    intro c hc
    rcases List.mem_cons.mp hc with hc | hc
    · subst hc
      refine ⟨by simp, ?_⟩
      simp only [ne_eq, List.take_eq_nil_iff, APP_PAGE_MAX_SIZE]
      simp [h]
    · exact ih c hc

lemma program_pages_dropLast_length (raw : List Nat) :
    ∀ c ∈ (program_pages raw).dropLast, c.length = APP_PAGE_MAX_SIZE := by
  induction raw using program_pages.induct with
  | case1 => simp [program_pages]
  | case2 raw h ih =>
    rw [program_pages, dif_neg h]
    cases hrest : program_pages (raw.drop APP_PAGE_MAX_SIZE) with
    | nil => simp
    | cons p ps =>
      intro c hc
      rw [List.dropLast_cons_of_ne_nil (by simp)] at hc
      rcases List.mem_cons.mp hc with hc | hc
      · subst hc
        have hlong : APP_PAGE_MAX_SIZE < raw.length := by
          by_contra hle
          have : raw.drop APP_PAGE_MAX_SIZE = [] :=
            List.drop_of_length_le (by omega)
          rw [this] at hrest
          rw [program_pages] at hrest
          simp at hrest
        simp only [List.length_take]
        omega
      · rw [← hrest] at hc
        exact ih c hc

lemma program_pages_sizes_example (raw : List Nat)
    (h : raw.length = 2 * APP_PAGE_MAX_SIZE + 10) :
    (program_pages raw).map List.length =
      [APP_PAGE_MAX_SIZE, APP_PAGE_MAX_SIZE, 10] := by
  have h0 : raw ≠ [] := by
    intro hh
    rw [hh] at h
    simp [APP_PAGE_MAX_SIZE] at h
  have h1 : (raw.drop APP_PAGE_MAX_SIZE).length = APP_PAGE_MAX_SIZE + 10 := by
    simp only [List.length_drop]
    omega
  have h1ne : raw.drop APP_PAGE_MAX_SIZE ≠ [] := by
    intro hh
    rw [hh] at h1
    simp [APP_PAGE_MAX_SIZE] at h1
  have h2 : ((raw.drop APP_PAGE_MAX_SIZE).drop APP_PAGE_MAX_SIZE).length = 10 := by
    simp only [List.length_drop]
    omega
  have h2ne : (raw.drop APP_PAGE_MAX_SIZE).drop APP_PAGE_MAX_SIZE ≠ [] := by
    intro hh
    rw [hh] at h2
    simp at h2
  have h3 : (((raw.drop APP_PAGE_MAX_SIZE).drop APP_PAGE_MAX_SIZE).drop
      APP_PAGE_MAX_SIZE) = [] :=
    List.drop_of_length_le (by rw [h2]; simp only [APP_PAGE_MAX_SIZE]; omega)
  rw [program_pages, dif_neg h0, program_pages, dif_neg h1ne, program_pages,
    dif_neg h2ne, h3, program_pages, dif_pos rfl]
  simp only [List.map_cons, List.map_nil, List.length_take, h1, h2, h]
  simp only [APP_PAGE_MAX_SIZE]
  decide

/-- C7: `program_pages` splits the assembled binary into consecutive chunks in
order whose concatenation is the original binary; every chunk except possibly
the last is exactly `APP_PAGE_MAX_SIZE` bytes, every chunk is non-empty and
at most a page; and a binary of `2 * APP_PAGE_MAX_SIZE + 10` bytes yields
exactly the three chunk sizes `[page, page, 10]`. -/
theorem program_pages_spec (raw : List Nat) :
    ((program_pages raw).flatten = raw) ∧
    (∀ c ∈ (program_pages raw).dropLast, c.length = APP_PAGE_MAX_SIZE) ∧
    (∀ c ∈ program_pages raw, c.length ≤ APP_PAGE_MAX_SIZE ∧ c ≠ []) ∧
    (raw.length = 2 * APP_PAGE_MAX_SIZE + 10 →
      (program_pages raw).map List.length =
        [APP_PAGE_MAX_SIZE, APP_PAGE_MAX_SIZE, 10]) :=
  ⟨program_pages_flatten raw, program_pages_dropLast_length raw,
    program_pages_mem_length raw, program_pages_sizes_example raw⟩

/-- Witness for C7 on a concrete binary of `2 * page + 10` zero bytes. -/
theorem program_pages_spec_witness :
    (program_pages (List.replicate (2 * APP_PAGE_MAX_SIZE + 10) 0)).map
        List.length = [APP_PAGE_MAX_SIZE, APP_PAGE_MAX_SIZE, 10] :=
  (program_pages_spec (List.replicate (2 * APP_PAGE_MAX_SIZE + 10) 0)).2.2.2
    (by simp)

instance {ε α : Type} [DecidableEq ε] [DecidableEq α] : DecidableEq (Except ε α)
  | .ok a, .ok b => decidable_of_iff (a = b) (by simp)
  | .ok _, .error _ => isFalse (by simp)
  | .error _, .ok _ => isFalse (by simp)
  | .error e, .error f => decidable_of_iff (e = f) (by simp)

/-! ### Source-text helpers (Python `str` operations over `List Char`) -/

/-- Python `s.split("\n")`: split at every newline, keeping empty pieces
(`"".split("\n") == [""]`). -/
def splitOnNl : List Char → List (List Char)
  | [] => [[]]
  | c :: rest =>
    if c = '\n' then [] :: splitOnNl rest
    else
      match splitOnNl rest with
      | [] => [[c]]
      | l :: ls => (c :: l) :: ls

/-- Python `s.splitlines()` for `\n` line endings: like `split("\n")` but
with no trailing empty piece, and `"".splitlines() == []`. -/
def pySplitlines (s : List Char) : List (List Char) :=
  if s = [] then []
  else if s.getLast? = some '\n' then (splitOnNl s).dropLast
  else splitOnNl s

/-- Python `"\n".join(lines)`. -/
def joinNl (lines : List (List Char)) : List Char :=
  List.intercalate ['\n'] lines

/-- Python `s.strip(chars)`: remove any run of the given characters from both
ends. -/
def pyStrip (chars : List Char) (cs : List Char) : List Char :=
  ((cs.dropWhile (fun c => chars.contains c)).reverse.dropWhile
    (fun c => chars.contains c)).reverse

/-- Python `s.replace(old, new, 1)`: replace the leftmost occurrence of `old`
(if any) by `new`. -/
def replace_first (old new : List Char) (s : List Char) : List Char :=
  if old.isPrefixOf s then new ++ s.drop old.length
  else
    match s with
    | [] => []
    | c :: rest => c :: replace_first old new rest

/-! ### `LSigProgram.__init__` (precompile.py lines 103-130) -/

/-- The opcode just before a byte template variable (line 37). -/
def PUSH_BYTES : List Char := "pushbytes".data

/-- The opcode just before a uint64 template variable (line 39). -/
def PUSH_INT : List Char := "pushint".data

/-- The zero value for the byte type (line 42): the two-character string
`""`. -/
def ZERO_BYTES : List Char := "\"\"".data

/-- The zero value for the uint64 type (line 44). -/
def ZERO_INT : List Char := "0".data

/-- Modelled from the spec: `RuntimeTemplateVariable` lives in
`beaker/logic_signature.py`, which is not under `src/`.  Per the spec (§4.2)
each declared placeholder carries a unique token, a logical name, and a value
kind (bytes or integer); `is_bytes` stands for
`rtt_var.type_of() == TealType.bytes`. -/
structure RuntimeTemplateVariable where
  token : List Char
  name : String
  is_bytes : Bool

/-- The exact line the scanner looks for (line 118):
`f"{op} {token} // {token}"`. -/
def template_statement (rtv : RuntimeTemplateVariable) : List Char :=
  ((if rtv.is_bytes then PUSH_BYTES else PUSH_INT) ++ [' ']) ++
    (rtv.token ++ (" // ".data ++ rtv.token))

/-- The error of `lines.index(statement)`: `ValueError` when absent (line 119). -/
inductive ScanErr where
  | valueError (token : List Char)
deriving DecidableEq

/-- Python `lines.index(t)`: the first index holding exactly `t`, if any. -/
def py_index (t : List Char) : List (List Char) → Option Nat
  | [] => none
  | l :: ls => if l = t then some 0 else (py_index t ls).map (· + 1)

/-- The scanning loop of `LSigProgram.__init__` (lines 114-126): find each
variable's exact statement line, replace the first occurrence of the token in
that line by the kind's zero literal, and record a template value holding the
line index. -/
def lsig_scan : List (List Char) → List RuntimeTemplateVariable →
    Except ScanErr (List (List Char) × List PrecompileTemplateValue)
  | lines, [] => .ok (lines, [])
  | lines, rtv :: rest =>
    match py_index (template_statement rtv) lines with
    | none => .error (.valueError rtv.token)
    | some idx =>
      match lsig_scan (lines.set idx
        (replace_first rtv.token
          (if rtv.is_bytes then ZERO_BYTES else ZERO_INT)
          (lines.getD idx []))) rest with
      | .error e => .error e
      | .ok (ls, tvs) => .ok (ls, ⟨rtv.name, rtv.is_bytes, idx, 0⟩ :: tvs)

/-- Model of `LSigProgram.__init__` (lines 103-130): when template variables are
declared, split the program into lines, run the scan, and re-join with
newlines. -/
def lsig_init (program : List Char) (rtvs : List RuntimeTemplateVariable) :
    Except ScanErr (List Char × List PrecompileTemplateValue) :=
  match rtvs with
  | [] => .ok (program, [])
  | _ :: _ =>
    match lsig_scan (pySplitlines program) rtvs with
    | .error e => .error e
    | .ok (lines, tvs) => .ok (joinNl lines, tvs)

/-! ### `_gather_asserts` (precompile.py lines 367-386) -/

/-- The `ProgramAssertion` dataclass (lines 361-364). -/
structure ProgramAssertion where
  line : Nat
  message : List Char
deriving DecidableEq

/-- The characters Python's `line_before.strip("// ")` removes from both
ends. -/
def comment_chars : List Char := ['/', ' ']

/-- Python `program_lines[idx - 1]`: the previous line, except that for
`idx = 0` Python's negative indexing yields the LAST line (`split` always
returns a non-empty list, so no `IndexError`). -/
def gather_line_before (lines : List (List Char)) (idx : Nat) : List Char :=
  if idx = 0 then lines.getLastD [] else lines.getD (idx - 1) []

/-- Model of `_gather_asserts` (lines 367-386): scan `program.split("\n")` for lines
whose first space-separated chunk is `assert`, look at the line before, and
when it starts with `//` record the assert line's first pc mapped to the
stripped comment.  The Python `dict` is modelled as the association list in
iteration order (identical content when the recorded pcs are distinct, which
a real source map guarantees for distinct instruction lines). -/
def _gather_asserts (program : List Char) (first_pc : Nat → Nat) :
    List (Nat × ProgramAssertion) :=
  let lines := splitOnNl program
  lines.enum.filterMap fun p =>
    if (p.2.takeWhile (fun c => c ≠ ' ')) = "assert".data then
      let line_before := gather_line_before lines p.1
      if ("//".data).isPrefixOf line_before then
        some (first_pc p.1, ⟨p.1, pyStrip comment_chars line_before⟩)
      else none
    else none

/-! ### Claim C4 -/

lemma py_index_eq_none (t : List Char) :
    ∀ (l : List (List Char)), (∀ x ∈ l, x ≠ t) → py_index t l = none := by
  intro l
  induction l with
  | nil => intro _; rfl
  | cons x l ih =>
    intro h
    rw [py_index, if_neg (h x (by simp)), ih (fun y hy => h y (by simp [hy]))]
    rfl

lemma py_index_eq_some_spec :
    ∀ (l : List (List Char)) (t : List Char) (idx : Nat),
      py_index t l = some idx →
      idx < l.length ∧ l.getD idx [] = t ∧ ∀ j, j < idx → l.getD j [] ≠ t := by
  intro l
  induction l with
  | nil => intro t idx h; simp [py_index] at h
  | cons x l ih =>
    intro t idx h
    by_cases hx : x = t
    · rw [py_index, if_pos hx] at h
      obtain rfl : 0 = idx := Option.some.inj h
      exact ⟨by simp, by simp [hx], by omega⟩
    · rw [py_index, if_neg hx] at h
      cases hrec : py_index t l with
      | none => rw [hrec] at h; simp at h
      | some j =>
        rw [hrec] at h
        simp only [Option.map_some'] at h
        obtain rfl : j + 1 = idx := Option.some.inj h
        obtain ⟨h1, h2, h3⟩ := ih t j hrec
        refine ⟨by simpa using h1, by simpa using h2, ?_⟩
        intro k hk
        cases k with
        | zero => simpa using hx
        | succ k => simpa using h3 k (by omega)

lemma isPrefixOf_append_self : ∀ (l t : List Char), l.isPrefixOf (l ++ t) = true := by
  intro l t
  induction l with
  | nil => simp [List.isPrefixOf]
  | cons c l ih => simp [List.isPrefixOf, ih]

lemma replace_first_at :
    ∀ (k : Nat) (s old new : List Char),
      (∀ i, i < k → old.isPrefixOf (s.drop i) = false) →
      old.isPrefixOf (s.drop k) = true →
      replace_first old new s = s.take k ++ (new ++ s.drop (k + old.length)) := by
  intro k
  induction k with
  | zero =>
    intro s old new _ hpre
    rw [List.drop_zero] at hpre
    rw [replace_first.eq_def, if_pos hpre]
    simp
  | succ k ih =>
    intro s old new hlt hpre
    have h0 : old.isPrefixOf s = false := by simpa using hlt 0 (by omega)
    rw [replace_first.eq_def, if_neg (by simp [h0])]
    cases s with
    | nil => simp at hpre; rw [hpre] at h0; simp at h0
    | cons c rest =>
      have hnext : replace_first old new rest =
          rest.take k ++ (new ++ rest.drop (k + old.length)) := by
        refine ih rest old new ?_ (by simpa using hpre)
        intro i hi
        simpa using hlt (i + 1) (by omega)
      simp only [hnext, List.take_succ_cons]
      have : k + 1 + old.length = (k + old.length) + 1 := by omega
      rw [this, List.drop_succ_cons]
      simp

/-- C4 (amended): for each declared runtime template variable in turn, the
constructor locates the first line whose entire content is exactly
`"<push-op> <token> // <token>"` and fails with a `ValueError` when no such
line exists; on success it records a template value referencing that line
index and replaces the FIRST occurrence of the token in the line with the
canonical zero literal for its kind — which leaves the push-op intact
whenever the token does not occur within the leading `"<push-op> "` text (as
with the `TMPL_`-prefixed tokens the generators produce), though not for a
pathological token that overlaps the mnemonic. -/
theorem lsig_scan_spec (lines : List (List Char))
    (rtv : RuntimeTemplateVariable) (rest : List RuntimeTemplateVariable) :
    ((∀ l ∈ lines, l ≠ template_statement rtv) →
      lsig_scan lines (rtv :: rest) = .error (.valueError rtv.token)) ∧
    (∀ idx, py_index (template_statement rtv) lines = some idx →
      (idx < lines.length ∧ lines.getD idx [] = template_statement rtv ∧
        ∀ j, j < idx → lines.getD j [] ≠ template_statement rtv) ∧
      lsig_scan lines (rtv :: rest) =
        Except.map
          (fun r => (r.1,
            (⟨rtv.name, rtv.is_bytes, idx, 0⟩ : PrecompileTemplateValue) :: r.2))
          (lsig_scan (lines.set idx
            (replace_first rtv.token
              (if rtv.is_bytes then ZERO_BYTES else ZERO_INT)
              (template_statement rtv))) rest)) ∧
    ((∀ i, i < ((if rtv.is_bytes then PUSH_BYTES else PUSH_INT) ++ [' ']).length →
        rtv.token.isPrefixOf ((template_statement rtv).drop i) = false) →
      replace_first rtv.token
          (if rtv.is_bytes then ZERO_BYTES else ZERO_INT)
          (template_statement rtv) =
        ((if rtv.is_bytes then PUSH_BYTES else PUSH_INT) ++ [' ']) ++
          ((if rtv.is_bytes then ZERO_BYTES else ZERO_INT) ++
            (" // ".data ++ rtv.token))) := by
  refine ⟨?_, ?_, ?_⟩
  · intro hnone
    have h : py_index (template_statement rtv) lines = none :=
      py_index_eq_none _ lines hnone
    simp only [lsig_scan, h]
  · intro idx hidx
    obtain ⟨h1, h2, h3⟩ := py_index_eq_some_spec lines (template_statement rtv)
      idx hidx
    refine ⟨⟨h1, h2, h3⟩, ?_⟩
    simp only [lsig_scan, hidx, h2]
    cases hrec : lsig_scan (lines.set idx
      (replace_first rtv.token
        (if rtv.is_bytes then ZERO_BYTES else ZERO_INT)
        (template_statement rtv))) rest with
    | error e => rfl
    | ok p => rfl
  · intro hno
    set op := (if rtv.is_bytes then PUSH_BYTES else PUSH_INT) ++ [' '] with hop
    have hdropk : (template_statement rtv).drop op.length =
        rtv.token ++ (" // ".data ++ rtv.token) := by
      rw [template_statement, ← hop, List.drop_left]
    have hpre : rtv.token.isPrefixOf ((template_statement rtv).drop op.length) =
        true := by
      rw [hdropk]
      exact isPrefixOf_append_self _ _
    rw [replace_first_at op.length (template_statement rtv) rtv.token
      (if rtv.is_bytes then ZERO_BYTES else ZERO_INT) hno hpre]
    rw [show template_statement rtv =
      op ++ (rtv.token ++ (" // ".data ++ rtv.token)) from by
        rw [template_statement, ← hop]]
    rw [List.take_left, List.drop_append, List.drop_left]

/-- Witness for C4 (amended) with the realistic token `TMPL_X`: the
replacement yields `pushbytes "" // TMPL_X`, push-op preserved. -/
theorem lsig_scan_spec_witness :
    replace_first ("TMPL_X".data) ZERO_BYTES
        (template_statement ⟨"TMPL_X".data, "x", true⟩) =
      ((PUSH_BYTES ++ [' ']) ++
        (ZERO_BYTES ++ (" // ".data ++ "TMPL_X".data))) :=
  (lsig_scan_spec [] ⟨"TMPL_X".data, "x", true⟩ []).2.2 (by decide)

/-- Counterexample for C4 as stated: for the integer-kind variable with token
`int`, the first occurrence of the token inside the statement line
`pushint int // int` begins inside the mnemonic itself, so the construction
succeeds but rewrites the line to `push0 int // int` — the push-op is NOT
preserved and the zero literal does not replace the operand. -/
theorem lsig_init_pushop_counterexample :
    lsig_init ("pushint int // int".data) [⟨"int".data, "x", false⟩] =
      .ok ("push0 int // int".data, [⟨"x", false, 0, 0⟩]) ∧
    (PUSH_INT ++ [' ']).isPrefixOf ("push0 int // int".data) = false := by
  decide

/-! ### Claim C6 -/

/-- C6 (amended): the gathered assertion list has an entry exactly for each
source line whose first space-separated token is `assert` and whose
"previous" line is a `//` comment — where the previous line is the one just
above for an assert below the first line, but, through Python's negative
indexing of `program_lines[idx - 1]`, the LAST source line when the assert
sits on line 0; each entry maps the assert line's first program counter to
that comment stripped of leading and trailing `/` and space characters. -/
theorem gather_asserts_mem (program : List Char) (first_pc : Nat → Nat)
    (pc : Nat) (a : ProgramAssertion) :
    (pc, a) ∈ _gather_asserts program first_pc ↔
      ∃ idx, idx < (splitOnNl program).length ∧
        ((splitOnNl program).getD idx []).takeWhile (fun c => c ≠ ' ') =
          "assert".data ∧
        pc = first_pc idx ∧
        ((1 ≤ idx ∧
          ("//".data).isPrefixOf ((splitOnNl program).getD (idx - 1) []) = true ∧
          a = ⟨idx, pyStrip comment_chars
            ((splitOnNl program).getD (idx - 1) [])⟩) ∨
         (idx = 0 ∧
          ("//".data).isPrefixOf ((splitOnNl program).getLastD []) = true ∧
          a = ⟨0, pyStrip comment_chars ((splitOnNl program).getLastD [])⟩)) := by
  constructor
  · intro hmem
    simp only [_gather_asserts] at hmem
    obtain ⟨⟨idx, line⟩, hp, hf⟩ := List.mem_filterMap.mp hmem
    have hidx : (splitOnNl program)[idx]? = some line :=
      List.mk_mem_enum_iff_getElem?.mp hp
    rw [List.getElem?_eq_some] at hidx
    obtain ⟨hlt, hline⟩ := hidx
    have hgetD : (splitOnNl program).getD idx [] = line := by
      rw [List.getD_eq_getElem?_getD, List.getElem?_eq_getElem hlt, hline]
      rfl
    dsimp only at hf
    by_cases hassert : line.takeWhile (fun c => c ≠ ' ') = "assert".data
    case neg => rw [if_neg hassert] at hf; exact absurd hf (by simp)
    rw [if_pos hassert] at hf
    by_cases hcmt : ("//".data).isPrefixOf
        (gather_line_before (splitOnNl program) idx) = true
    case neg => rw [if_neg hcmt] at hf; exact absurd hf (by simp)
    rw [if_pos hcmt] at hf
    obtain ⟨hpc, ha⟩ : first_pc idx = pc ∧
        (⟨idx, pyStrip comment_chars
          (gather_line_before (splitOnNl program) idx)⟩ : ProgramAssertion) =
          a := by
      have := Option.some.inj hf
      exact ⟨congrArg Prod.fst this, congrArg Prod.snd this⟩
    refine ⟨idx, hlt, by rw [hgetD]; exact hassert, hpc.symm, ?_⟩
    by_cases h0 : idx = 0
    · right
      subst h0
      rw [gather_line_before, if_pos rfl] at hcmt ha
      exact ⟨rfl, hcmt, ha.symm⟩
    · left
      rw [gather_line_before, if_neg h0] at hcmt ha
      exact ⟨by omega, hcmt, ha.symm⟩
  · rintro ⟨idx, hlt, hassert, hpc, hcase⟩
    simp only [_gather_asserts]
    apply List.mem_filterMap.mpr
    refine ⟨(idx, (splitOnNl program).getD idx []), ?_, ?_⟩
    · apply List.mk_mem_enum_iff_getElem?.mpr
      rw [List.getElem?_eq_getElem hlt, List.getD_eq_getElem?_getD,
        List.getElem?_eq_getElem hlt]
      rfl
    · dsimp only
      rw [if_pos hassert]
      rcases hcase with ⟨h1, hcmt, ha⟩ | ⟨h0, hcmt, ha⟩
      · have h0 : ¬idx = 0 := by omega
        rw [gather_line_before, if_neg h0, if_pos hcmt, hpc, ha]
      · subst h0
        rw [gather_line_before, if_pos (rfl : (0 : Nat) = 0), if_pos hcmt,
          hpc, ha]

/-- Witness for C6 (amended), matching the spec's own example: an assert on
line 2 preceded by the comment `// must be positive` yields an entry mapping
that line's first pc to the stripped text `must be positive`. -/
theorem gather_asserts_mem_witness :
    (5, (⟨2, "must be positive".data⟩ : ProgramAssertion)) ∈
      _gather_asserts ("#pragma version 6\n// must be positive\nassert".data)
        (fun n => if n = 2 then 5 else 0) :=
  (gather_asserts_mem ("#pragma version 6\n// must be positive\nassert".data)
    (fun n => if n = 2 then 5 else 0) 5 ⟨2, "must be positive".data⟩).mpr
    ⟨2, by decide, by decide, by decide,
      Or.inl ⟨by decide, by decide, by decide⟩⟩

/-- Counterexample for C6 as stated: a program whose FIRST line is an assert
and whose LAST line is a comment.  Line 0 has no immediately preceding source
line, so per the claim the map should be empty; the code nevertheless records
an entry for line 0 via Python's `program_lines[0 - 1]` wrapping to the last
line. -/
theorem gather_asserts_counterexample :
    _gather_asserts ("assert\n// hi".data) (fun _ => 7) =
      [(7, ⟨0, "hi".data⟩)] ∧
    (splitOnNl ("assert\n// hi".data)).length = 2 := by
  decide

end Beaker
